import Mathlib

/-!
# Verification of the vLLM beam-search decoding controller

Shallow embedding of `src/vllm/beam_search.py` and the `beam_search`
orchestrator of `src/vllm/engine/protocol.py`, together with proofs of the
specification claims about them.

Modelling conventions:
* Python token ids are `ℤ`; Python floats are modelled as real numbers `ℝ`
  (the claims under scrutiny are algebraic, not about rounding).
* Python `x ** a` on nonnegative bases is `Real.rpow`.
* Python's stable `sorted(l, key = k, reverse = True)` is modelled by
  `List.mergeSort` with the reflexive total comparison
  `fun a b => decide (k b ≤ k a)`; core `mergeSort` is stable, like CPython's
  sort.
* Mutation of a `dataclass` field becomes functional record update; the
  aliasing of Python object references is irrelevant for the claims proved
  here and is noted where it matters.
-/

namespace VllmBeam

/-- `vllm.sequence.Logprob` carries a float logprob (plus rank/decoded text
that the beam-search core never reads); modelled by the logprob alone.  A
per-position logprobs dict `dict[int, Logprob]` becomes an association list
in insertion order, which is also Python's dict iteration order. -/
def LogprobsEntry : Type := List (ℤ × ℝ)

/-- `vllm/beam_search.py`, `BeamSearchSequence` (lines 14-33).  The opaque
passthrough fields (`lora_request`, `multi_modal_data`,
`mm_processor_kwargs`) are never inspected by the core and are omitted. -/
structure BeamSearchSequence where
  tokens : List ℤ
  logprobs : List LogprobsEntry
  cum_logprob : ℝ := 0
  text : Option String := none
  finish_reason : Option String := none
  stop_reason : Option ℤ := none
  is_finished : Bool := false
  finished_step : Option ℕ := none

/-- `vllm/beam_search.py`, `EOSTokenConfig` (lines 45-84).  The Python
`Set[int]` of additional ids is modelled as a list queried by membership. -/
structure EOSTokenConfig where
  primary_eos_token_id : Option ℤ := none
  additional_eos_token_ids : List ℤ := []
  ignore_eos : Bool := false
  min_tokens : ℕ := 0

namespace EOSTokenConfig

/-- `EOSTokenConfig.all_eos_token_ids`: the additional ids plus the primary
id when present (set membership is all that is ever used). -/
def all_eos_token_ids (c : EOSTokenConfig) : List ℤ :=
  c.additional_eos_token_ids ++
    (match c.primary_eos_token_id with
     | some p => [p]
     | none => [])

/-- `EOSTokenConfig.is_eos_token`: membership test in `all_eos_token_ids`. -/
def is_eos_token (c : EOSTokenConfig) (token_id : ℤ) : Bool :=
  (c.all_eos_token_ids).contains token_id

end EOSTokenConfig

/-- `vllm/beam_search.py`, `get_beam_search_score` (lines 201-236).

`seq_len` starts as `len(tokens)` and is decremented when the list is
nonempty and its last element is the EOS id (the guarded `tokens and
tokens[-1] == eos_token_id` test is rendered by matching on `getLast?`).
The GNMT length penalty uses `k = 5.0` and real exponentiation. -/
noncomputable def get_beam_search_score (tokens : List ℤ)
    (cumulative_logprob : ℝ) (eos_token_id : ℤ)
    (length_penalty : ℝ := 1) : ℝ :=
  let seq_len : ℕ :=
    match tokens.getLast? with
    | some t => if t = eos_token_id then tokens.length - 1 else tokens.length
    | none => tokens.length
  let lp : ℝ := ((5 + (seq_len : ℝ)) ^ length_penalty) /
    ((5 + 1 : ℝ) ^ length_penalty)
  cumulative_logprob / lp

/-- The effective sequence length used by `get_beam_search_score` for
normalization: the length of `tokens`, minus one when the last token is the
EOS id. -/
def effectiveLen (tokens : List ℤ) (eos_token_id : ℤ) : ℕ :=
  match tokens.getLast? with
  | some t => if t = eos_token_id then tokens.length - 1 else tokens.length
  | none => tokens.length

theorem get_beam_search_score_eq (tokens : List ℤ) (C : ℝ) (e : ℤ) (α : ℝ) :
    get_beam_search_score tokens C e α =
      C / (((5 + (effectiveLen tokens e : ℝ)) ^ α) / ((5 + 1 : ℝ) ^ α)) := by
  unfold get_beam_search_score effectiveLen
  rfl

/-- A variant of `get_beam_search_score` in which the Python indexing
expression `tokens[-1]` is modelled as the fallible access it is
(`IndexError` on an empty list becomes `none`).  The source guards the
access with the short-circuiting `tokens and tokens[-1] == eos_token_id`,
so the access only happens on nonempty lists. -/
noncomputable def get_beam_search_score_checked (tokens : List ℤ)
    (cumulative_logprob : ℝ) (eos_token_id : ℤ)
    (length_penalty : ℝ := 1) : Option ℝ :=
  let seq_len? : Option ℕ :=
    if tokens.isEmpty then
      some tokens.length
    else
      tokens.getLast?.map (fun t =>
        if t = eos_token_id then tokens.length - 1 else tokens.length)
  seq_len?.map (fun seq_len =>
    cumulative_logprob /
      (((5 + (seq_len : ℝ)) ^ length_penalty) / ((5 + 1 : ℝ) ^ length_penalty)))

theorem get_beam_search_score_checked_total (tokens : List ℤ) (C : ℝ)
    (e : ℤ) (α : ℝ) :
    get_beam_search_score_checked tokens C e α =
      some (get_beam_search_score tokens C e α) := by
  unfold get_beam_search_score_checked get_beam_search_score
  cases h : tokens.getLast? with
  | none =>
    have : tokens = [] := List.getLast?_eq_none_iff.mp h
    subst this
    simp
  | some t =>
    have hne : tokens ≠ [] := by
      intro hnil
      subst hnil
      simp at h
    simp [List.isEmpty_iff, hne, h]

theorem score_eq_div_rpow (tokens : List ℤ) (C : ℝ) (e : ℤ) (α : ℝ) :
    get_beam_search_score tokens C e α =
      C / (((5 + (effectiveLen tokens e : ℝ)) / 6) ^ α) := by
  rw [get_beam_search_score_eq]
  rw [Real.div_rpow (by positivity) (by norm_num)]
  norm_num

/-- C3: appending the terminating EOS token does not change the score,
because the trailing EOS is excluded from the effective length used for
normalization: for every token list `t` not ending in the EOS id `e`,
every cumulative log-probability `C` and every length penalty `α`,
`get_beam_search_score t C e α = get_beam_search_score (t ++ [e]) C e α`. -/
theorem eos_append_score_invariant (t : List ℤ) (C : ℝ) (e : ℤ) (α : ℝ)
    (h : t.getLast? ≠ some e) :
    get_beam_search_score t C e α = get_beam_search_score (t ++ [e]) C e α := by
  rw [get_beam_search_score_eq, get_beam_search_score_eq]
  have hlen : effectiveLen (t ++ [e]) e = effectiveLen t e := by
    unfold effectiveLen
    have happ : (t ++ [e]).getLast? = some e := by
      simp [List.getLast?_append]
    rw [happ]
    simp only [if_pos rfl, List.length_append, List.length_singleton,
      Nat.add_sub_cancel]
    cases hl : t.getLast? with
    | none =>
      have : t = [] := List.getLast?_eq_none_iff.mp hl
      simp [this]
    | some x =>
      have hx : x ≠ e := by
        intro hxe
        exact h (hxe ▸ hl)
      simp [hx]
  rw [hlen]

/-- Witness for C3 at the concrete input `t = [1, 2]`, `e = 9`,
`C = -1`, `α = 1`. -/
theorem eos_append_score_invariant_witness :
    (([1, 2] : List ℤ).getLast? ≠ some 9) ∧
      get_beam_search_score [1, 2] (-1) 9 1 =
        get_beam_search_score ([1, 2] ++ [9]) (-1) 9 1 :=
  ⟨by decide, eos_append_score_invariant [1, 2] (-1) 9 1 (by decide)⟩

/-- C2 counterexample: the claim quantifies over every cumulative
log-probability `C`, but at `C = 0` (tokens `[1, 2]`, EOS id `9`,
`α₁ = 1 < 2 = α₂`) both scores are `0`, so the score is not strictly
increasing in the length-penalty exponent. -/
theorem score_not_strictMono_in_alpha_cex :
    ¬ (get_beam_search_score [1, 2] 0 9 1 <
        get_beam_search_score [1, 2] 0 9 2) := by
  rw [score_eq_div_rpow, score_eq_div_rpow, zero_div, zero_div]
  exact lt_irrefl 0

/-- C2 (amended): for a fixed token list whose effective length (length
minus a trailing EOS) exceeds 1 and a fixed negative cumulative
log-probability `C`, the score is strictly increasing in the
length-penalty exponent: `α₁ < α₂` implies
`score t C e α₁ < score t C e α₂`. -/
theorem score_strictMono_in_alpha (t : List ℤ) (C : ℝ) (e : ℤ) (α₁ α₂ : ℝ)
    (hlen : 1 < effectiveLen t e) (hC : C < 0) (hα : α₁ < α₂) :
    get_beam_search_score t C e α₁ < get_beam_search_score t C e α₂ := by
  rw [score_eq_div_rpow, score_eq_div_rpow]
  set b : ℝ := (5 + (effectiveLen t e : ℝ)) / 6 with hb
  have hb1 : (1 : ℝ) < b := by
    have h2 : (2 : ℝ) ≤ (effectiveLen t e : ℝ) := by exact_mod_cast hlen
    rw [hb]
    rw [lt_div_iff₀ (by norm_num : (0:ℝ) < 6)]
    linarith
  have hpow : b ^ α₁ < b ^ α₂ := (Real.rpow_lt_rpow_left_iff hb1).mpr hα
  have hp1 : 0 < b ^ α₁ := Real.rpow_pos_of_pos (lt_trans one_pos hb1) _
  have hinv : (b ^ α₂)⁻¹ < (b ^ α₁)⁻¹ := inv_strictAnti₀ hp1 hpow
  rw [div_eq_mul_inv, div_eq_mul_inv]
  exact mul_lt_mul_of_neg_left hinv hC

/-- Witness for the amended C2 at `t = [1, 2]`, `C = -1`, `e = 9`,
`α₁ = 1`, `α₂ = 2`. -/
theorem score_strictMono_in_alpha_witness :
    (1 < effectiveLen [1, 2] 9 ∧ (-1 : ℝ) < 0 ∧ (1 : ℝ) < 2) ∧
      get_beam_search_score [1, 2] (-1) 9 1 <
        get_beam_search_score [1, 2] (-1) 9 2 :=
  ⟨⟨by decide, by norm_num, by norm_num⟩,
    score_strictMono_in_alpha [1, 2] (-1) 9 1 2 (by decide) (by norm_num)
      (by norm_num)⟩

/-- C4: with `length_penalty = 1` the scoring function divides the
cumulative log-probability by the GNMT factor `(5 + effectiveLen) / 6`,
and it is not the identity on that log-probability (not a no-op):
some input has `score ≠ C`. -/
theorem score_alpha_one_gnmt :
    (∀ (t : List ℤ) (C : ℝ) (e : ℤ),
        get_beam_search_score t C e 1 =
          C / ((5 + (effectiveLen t e : ℝ)) / 6)) ∧
    (∃ (t : List ℤ) (C : ℝ) (e : ℤ), get_beam_search_score t C e 1 ≠ C) := by
  constructor
  · intro t C e
    rw [score_eq_div_rpow, Real.rpow_one]
  · refine ⟨[1, 2], 1, 9, ?_⟩
    rw [score_eq_div_rpow, Real.rpow_one]
    have : effectiveLen [1, 2] 9 = 2 := by decide
    rw [this]
    norm_num

/-- C10: `get_beam_search_score` is total on the empty token list: it
returns `C / ((5/6) ^ α)`, and the fallible-indexing variant (modelling
Python's `tokens[-1]`) returns `some` of the same value, since the
out-of-range access is guarded by the non-emptiness check. -/
theorem score_empty_total : ∀ (C : ℝ) (e : ℤ) (α : ℝ),
    get_beam_search_score [] C e α = C / (((5 : ℝ) / 6) ^ α) ∧
      get_beam_search_score_checked [] C e α =
        some (C / (((5 : ℝ) / 6) ^ α)) := by
  intro C e α
  have h : get_beam_search_score [] C e α = C / (((5 : ℝ) / 6) ^ α) := by
    rw [score_eq_div_rpow]
    have h0 : effectiveLen [] e = 0 := rfl
    rw [h0]
    norm_num
  exact ⟨h, by rw [get_beam_search_score_checked_total, h]⟩

section StableSort

variable {α : Type} (key : α → ℝ)

/-- Python's stable `sorted(l, key = key, reverse = True)`: a stable sort
that puts elements of larger key first and preserves the input order of
elements with equal keys.  Modelled by `List.mergeSort` (which is stable)
under the total reflexive comparison `key y ≤ key x`. -/
noncomputable def sortedByKeyDesc (l : List α) : List α :=
  l.mergeSort (fun x y => decide (key y ≤ key x))

theorem sortedByKeyDesc_trans : ∀ a b c : α,
    decide (key b ≤ key a) → decide (key c ≤ key b) →
      decide (key c ≤ key a) := fun _ _ _ h1 h2 =>
  decide_eq_true (le_trans (of_decide_eq_true h2) (of_decide_eq_true h1))

theorem sortedByKeyDesc_total : ∀ a b : α,
    decide (key b ≤ key a) || decide (key a ≤ key b) := by
  intro a b
  simp only [Bool.or_eq_true, decide_eq_true_eq]
  exact le_total (key b) (key a)

theorem sortedByKeyDesc_nil : sortedByKeyDesc key ([] : List α) = [] :=
  List.mergeSort_nil

theorem sortedByKeyDesc_singleton (a : α) : sortedByKeyDesc key [a] = [a] :=
  List.mergeSort_singleton a

theorem sortedByKeyDesc_perm (l : List α) :
    List.Perm (sortedByKeyDesc key l) l :=
  List.mergeSort_perm l _

theorem sortedByKeyDesc_length (l : List α) :
    (sortedByKeyDesc key l).length = l.length :=
  (sortedByKeyDesc_perm key l).length_eq

theorem sortedByKeyDesc_pairwise (l : List α) :
    (sortedByKeyDesc key l).Pairwise (fun a b => key b ≤ key a) := by
  have h := List.sorted_mergeSort
    (sortedByKeyDesc_trans key) (sortedByKeyDesc_total key) l
  exact h.imp (fun hab => of_decide_eq_true hab)

/-- Stability of the modelled Python sort, in filter form: restricting the
sorted list to the elements of any fixed key value `c` gives back exactly
the input's elements of key `c`, in their original order. -/
theorem sortedByKeyDesc_filter_key (l : List α) (c : ℝ) :
    (sortedByKeyDesc key l).filter (fun b => decide (key b = c)) =
      l.filter (fun b => decide (key b = c)) := by
  set p : α → Bool := fun b => decide (key b = c) with hp
  have hpair : (l.filter p).Pairwise
      (fun a b => decide (key b ≤ key a) = true) := by
    apply List.pairwise_of_forall_mem_list
    intro a ha b hb
    rw [List.mem_filter] at ha hb
    have hka : key a = c := of_decide_eq_true ha.2
    have hkb : key b = c := of_decide_eq_true hb.2
    exact decide_eq_true (le_of_eq (hkb.trans hka.symm))
  have hsub : List.Sublist (l.filter p) (sortedByKeyDesc key l) :=
    List.sublist_mergeSort (sortedByKeyDesc_trans key)
      (sortedByKeyDesc_total key) hpair (List.filter_sublist l)
  have hsub2 : List.Sublist ((l.filter p).filter p)
      ((sortedByKeyDesc key l).filter p) := hsub.filter p
  have hidem : (l.filter p).filter p = l.filter p := by
    rw [List.filter_filter]
    congr 1
    funext a
    rw [Bool.and_self]
  rw [hidem] at hsub2
  have hperm : List.Perm ((sortedByKeyDesc key l).filter p) (l.filter p) :=
    (sortedByKeyDesc_perm key l).filter p
  exact (hsub2.eq_of_length hperm.length_eq.symm).symm

/-- A filter of a `take`-prefix of a list is a `take`-prefix of the filter
of the list. -/
theorem filter_take_prefix (p : α → Bool) (l : List α) (n : ℕ) :
    ∃ j, (l.take n).filter p = (l.filter p).take j := by
  refine ⟨((l.take n).filter p).length, ?_⟩
  have h : l.filter p = (l.take n).filter p ++ (l.drop n).filter p := by
    rw [← List.filter_append, List.take_append_drop]
  rw [h, List.take_left]

end StableSort

/-- `vllm/beam_search.py`, `create_sort_beams_key_function` (lines 239-245):
the ranking key used for pruning and final selection. -/
noncomputable def sort_beams_key (eos_token_id : ℤ) (length_penalty : ℝ)
    (x : BeamSearchSequence) : ℝ :=
  get_beam_search_score x.tokens x.cum_logprob eos_token_id length_penalty

/-- `vllm/beam_search.py`, `BeamSearchInstance` (lines 87-198): the search
state (active beams, completed beams, EOS policy, step counter). -/
structure BeamSearchInstance where
  beams : List BeamSearchSequence
  completed : List BeamSearchSequence
  eos_config : EOSTokenConfig
  current_step : ℕ

namespace BeamSearchInstance

/-- `BeamSearchInstance.__init__`: one seed beam holding the prompt
tokens, empty completed list, step counter zero. -/
def init (prompt_tokens : List ℤ) (logprobs : List LogprobsEntry)
    (eos_config : EOSTokenConfig) : BeamSearchInstance where
  beams := [{ tokens := prompt_tokens, logprobs := logprobs }]
  completed := []
  eos_config := eos_config
  current_step := 0

/-- `BeamSearchInstance.should_terminate_beam` (lines 107-113). -/
def should_terminate_beam (st : BeamSearchInstance)
    (beam : BeamSearchSequence) (new_token_id : ℤ) : Bool :=
  if !st.eos_config.is_eos_token new_token_id then false
  else
    -- `EOSTokenConfig.should_stop_at_eos` on `beam.tokens + [new_token_id]`
    if st.eos_config.ignore_eos then false
    else if (beam.tokens ++ [new_token_id]).length <
        st.eos_config.min_tokens then false
    else true

/-- `BeamSearchInstance.finalize_beam` (lines 115-121): mark a beam
finished with the given reason (default `"stop"`); when its last token is
an EOS token, record it as the stop reason.  On a beam with no tokens the
Python source raises `IndexError` at `beam.tokens[-1]`; that branch is
modelled as returning the beam marked finished without a stop reason. -/
def finalize_beam (st : BeamSearchInstance) (beam : BeamSearchSequence)
    (finish_reason : String := "stop") : BeamSearchSequence :=
  let b := { beam with is_finished := true,
                       finished_step := some st.current_step,
                       finish_reason := some finish_reason }
  match b.tokens.getLast? with
  | some t => if st.eos_config.is_eos_token t
              then { b with stop_reason := some t } else b
  | none => b

/-- `BeamSearchInstance.add_completed_beam` (lines 123-127): finalize the
beam if it is not finished yet, then append it to `completed` —
unconditionally, with no membership guard. -/
def add_completed_beam (st : BeamSearchInstance)
    (beam : BeamSearchSequence) : BeamSearchInstance :=
  let b := if beam.is_finished then beam else st.finalize_beam beam
  { st with completed := st.completed ++ [b] }

/-- `BeamSearchInstance.step` (lines 129-131). -/
def step (st : BeamSearchInstance) : BeamSearchInstance :=
  { st with current_step := st.current_step + 1 }

/-- `BeamSearchInstance.cleanup_finished_beams` (lines 133-135). -/
def cleanup_finished_beams (st : BeamSearchInstance) : BeamSearchInstance :=
  { st with beams := st.beams.filter (fun beam => !beam.is_finished) }

/-- `BeamSearchInstance.get_best_completed_beams` (lines 137-153): sort
`completed` descending by `get_beam_search_score` (stable), keep the first
`beam_width`.  The scoring EOS id is `primary_eos_token_id or 0`, i.e. the
primary id when present and nonzero, else `0` — which coincides with
`Option.getD 0`. -/
noncomputable def get_best_completed_beams (st : BeamSearchInstance)
    (beam_width : ℕ) (length_penalty : ℝ := 1) : List BeamSearchSequence :=
  if st.completed.isEmpty then []
  else
    (sortedByKeyDesc
      (sort_beams_key (st.eos_config.primary_eos_token_id.getD 0)
        length_penalty)
      st.completed).take beam_width

/-- The adaptive margin of `BeamSearchInstance.should_early_stop`
(lines 186-193): a `0.90` base minus `0.02` per token the active beam is
longer than the reference finalist, floored at `0.70`. -/
noncomputable def adaptive_margin (seq_len completed_len : ℕ) : ℝ :=
  max 0.70 (0.90 - max 0 (((seq_len : ℝ) - (completed_len : ℝ)) * 0.02))

/-- `BeamSearchInstance.should_early_stop` (lines 155-198), as the
proposition "the Python call returns `True`".  The `best_completed[-1]`
index access raises `IndexError` when `best_completed` is empty (possible
only for `beam_width = 0`); that unreachable branch is modelled by the
`none` case of `getLast?`. -/
noncomputable def should_early_stop (st : BeamSearchInstance)
    (beam_width : ℕ) (length_penalty : ℝ := 1) : Prop :=
  if st.completed.length < beam_width then False
  else
    let best := st.get_best_completed_beams beam_width length_penalty
    if best.length < beam_width then False
    else
      match best.getLast? with
      | none => True
      | some worst =>
        let key := sort_beams_key
          (st.eos_config.primary_eos_token_id.getD 0) length_penalty
        ∀ b ∈ st.beams, b.is_finished = false →
          ¬ (key b > key worst *
              adaptive_margin b.tokens.length worst.tokens.length)

end BeamSearchInstance

/-- Failing input for C5: a beam already present in `completed` and
already finished. -/
def dupBeam : BeamSearchSequence :=
  { tokens := [1, 9], logprobs := [], cum_logprob := -1,
    finish_reason := some "stop", stop_reason := some 9,
    is_finished := true, finished_step := some 0 }

/-- Failing input for C5: the search state whose `completed` list already
contains `dupBeam`. -/
def dupState : BeamSearchInstance :=
  { beams := [], completed := [dupBeam],
    eos_config := { primary_eos_token_id := some 9 }, current_step := 0 }

/-- C5 (code behaviour at the failing input): `add_completed_beam` has no
membership guard, so adding a beam that is already in `completed` inserts
a second occurrence — the claimed idempotency does not hold in the code. -/
theorem add_completed_beam_not_idempotent :
    (dupState.add_completed_beam dupBeam).completed = [dupBeam, dupBeam] :=
  rfl

/-- C8: `get_best_completed_beams` returns `min (beam_width,
|completed|)` beams, sorted descending by the beam-search score taken at
the policy's primary EOS id (or 0 if absent), and the sort is stable: for
every score value `c`, the returned beams of score `c` are an initial
segment of the completed beams of score `c` in completion order. -/
theorem get_best_completed_beams_spec (st : BeamSearchInstance) (w : ℕ)
    (lp : ℝ) :
    (st.get_best_completed_beams w lp).length = min w st.completed.length ∧
    (st.get_best_completed_beams w lp).Pairwise (fun a b =>
      sort_beams_key (st.eos_config.primary_eos_token_id.getD 0) lp b ≤
        sort_beams_key (st.eos_config.primary_eos_token_id.getD 0) lp a) ∧
    ∀ c : ℝ, ∃ j,
      (st.get_best_completed_beams w lp).filter (fun b =>
        decide (sort_beams_key
          (st.eos_config.primary_eos_token_id.getD 0) lp b = c)) =
      (st.completed.filter (fun b =>
        decide (sort_beams_key
          (st.eos_config.primary_eos_token_id.getD 0) lp b = c))).take j := by
  set key := sort_beams_key (st.eos_config.primary_eos_token_id.getD 0) lp
    with hkey
  by_cases hc : st.completed = []
  · refine ⟨?_, ?_, ?_⟩
    · simp [BeamSearchInstance.get_best_completed_beams, hc]
    · simp [BeamSearchInstance.get_best_completed_beams, hc]
    · intro c
      refine ⟨0, ?_⟩
      simp [BeamSearchInstance.get_best_completed_beams, hc]
  · have hdef : st.get_best_completed_beams w lp =
        (sortedByKeyDesc key st.completed).take w := by
      rw [BeamSearchInstance.get_best_completed_beams,
        if_neg (by simpa [List.isEmpty_iff] using hc)]
    refine ⟨?_, ?_, ?_⟩
    · rw [hdef, List.length_take, sortedByKeyDesc_length]
    · rw [hdef]
      exact (sortedByKeyDesc_pairwise key st.completed).sublist
        (List.take_sublist _ _)
    · intro c
      obtain ⟨j, hj⟩ := filter_take_prefix
        (fun b => decide (key b = c)) (sortedByKeyDesc key st.completed) w
      rw [sortedByKeyDesc_filter_key] at hj
      exact ⟨j, by rw [hdef, hj]⟩

/-- Modelled from the spec's words (C7): the claimed characterization of
`should_early_stop`.  It returns false whenever `completed` has fewer than
`beam_width` elements; with at least `beam_width` completed beams it
returns true iff no still-active candidate `b` has
`score b > worstScore * max (0.70, 0.90 - 0.02 * max (0, len b.tokens -
len (bestW[-1]).tokens))`, where `bestW = get_best_completed_beams` and
`worstScore` is the score of its last element. -/
noncomputable def earlyStopContract (st : BeamSearchInstance)
    (beam_width : ℕ) (length_penalty : ℝ) : Prop :=
  (st.completed.length < beam_width →
    ¬ st.should_early_stop beam_width length_penalty) ∧
  (beam_width ≤ st.completed.length →
    ∃ worst,
      (st.get_best_completed_beams beam_width length_penalty).getLast? =
        some worst ∧
      (st.should_early_stop beam_width length_penalty ↔
        ∀ b ∈ st.beams, b.is_finished = false →
          ¬ (sort_beams_key (st.eos_config.primary_eos_token_id.getD 0)
              length_penalty b >
            sort_beams_key (st.eos_config.primary_eos_token_id.getD 0)
              length_penalty worst *
              max 0.70 (0.90 - 0.02 *
                max 0 ((b.tokens.length : ℝ) - (worst.tokens.length : ℝ))))))

theorem adaptive_margin_eq (sl cl : ℕ) :
    BeamSearchInstance.adaptive_margin sl cl =
      max 0.70 (0.90 - 0.02 * max 0 ((sl : ℝ) - (cl : ℝ))) := by
  unfold BeamSearchInstance.adaptive_margin
  congr 2
  rw [mul_comm, mul_max_of_nonneg _ _ (by norm_num : (0:ℝ) ≤ 0.02)]
  norm_num

/-- C7: for every positive beam width, `should_early_stop` satisfies the
claimed characterization (`earlyStopContract`): false below the width
threshold, and above it true exactly when no active beam beats the worst
finalist's score scaled by the adaptive margin. -/
theorem should_early_stop_spec (st : BeamSearchInstance) (w : ℕ) (lp : ℝ)
    (hw : 1 ≤ w) : earlyStopContract st w lp := by
  constructor
  · intro hlt
    unfold BeamSearchInstance.should_early_stop
    rw [if_pos hlt]
    exact not_false
  · intro hge
    have hne : st.completed ≠ [] := by
      intro h
      rw [h] at hge
      simp only [List.length_nil, Nat.le_zero] at hge
      omega
    have hlen : (st.get_best_completed_beams w lp).length = w := by
      have := (get_best_completed_beams_spec st w lp).1
      rw [this]
      omega
    have hbne : st.get_best_completed_beams w lp ≠ [] := by
      intro h
      rw [h] at hlen
      simp only [List.length_nil] at hlen
      omega
    refine ⟨(st.get_best_completed_beams w lp).getLast hbne,
      List.getLast?_eq_getLast _ hbne, ?_⟩
    unfold BeamSearchInstance.should_early_stop
    rw [if_neg (by omega : ¬ st.completed.length < w)]
    simp only
    rw [if_neg (by rw [hlen]; omega)]
    rw [List.getLast?_eq_getLast _ hbne]
    simp only [adaptive_margin_eq]

/-- Witness for C7 at the concrete state with no beams and no completed
candidates, width 1, length penalty 1. -/
theorem should_early_stop_spec_witness :
    1 ≤ 1 ∧
      earlyStopContract
        { beams := [], completed := [], eos_config := {}, current_step := 0 }
        1 1 :=
  ⟨Nat.le_refl 1,
    should_early_stop_spec
      { beams := [], completed := [], eos_config := {}, current_step := 0 }
      1 1 (Nat.le_refl 1)⟩

/-! ## The orchestrator: `EngineClient.beam_search`
(`src/vllm/engine/protocol.py`, lines 66-253)

The external generation service is abstracted as an oracle
`gen step i tokens`: the first-position logprobs dict returned for the
`i`-th active beam at loop iteration `step` (`None` models
`result.outputs[0].logprobs is None`, in which case the source produces no
children for that beam).  The tokenizer's detokenization is the abstract
`decode`.  The unsupported-prompt rejections, multimodal passthrough and
LoRA plumbing do not affect the properties claimed here and are omitted. -/

/-- The Python `CompletionOutput` fields populated by `beam_search`. -/
structure CompletionOutput where
  text : String
  cumulative_logprob : ℝ
  token_ids : List ℤ
  index : ℕ
  logprobs : List LogprobsEntry
  finish_reason : String
  stop_reason : Option ℤ

/-- Inputs of one `beam_search` call: the generation oracle, the
detokenizer, the prompt, the `BeamSearchParams` fields read by the source,
and the tokenizer-detected EOS configuration. -/
structure BeamSearchArgs where
  gen : ℕ → ℕ → List ℤ → Option LogprobsEntry
  decode : List ℤ → String
  prompt_token_ids : List ℤ
  beam_width : ℕ
  max_tokens : ℕ
  ignore_eos : Bool
  length_penalty : ℝ
  include_stop_str_in_output : Bool
  min_tokens : ℕ
  detected : EOSTokenConfig
  additional_eos_token_ids : List ℤ

namespace BeamSearchArgs

/-- protocol.py lines 175-179: the detected config with `ignore_eos` and
`min_tokens` overridden by the call parameters and the caller's additional
EOS ids merged in. -/
def eos_config (a : BeamSearchArgs) : EOSTokenConfig :=
  { a.detected with
    ignore_eos := a.ignore_eos,
    min_tokens := a.min_tokens,
    additional_eos_token_ids :=
      a.detected.additional_eos_token_ids ++ a.additional_eos_token_ids }

/-- protocol.py lines 181-186, the `sort_beams_key` closure. -/
noncomputable def beam_key (a : BeamSearchArgs) : BeamSearchSequence → ℝ :=
  sort_beams_key (a.eos_config.primary_eos_token_id.getD 0) a.length_penalty

end BeamSearchArgs

/-- The orchestrator's loop state: the active beams, the completed list
and the value of the `current_step` variable after the last executed
iteration. -/
structure OrchState where
  all_beams : List BeamSearchSequence
  completed : List BeamSearchSequence
  current_step : ℕ

/-- protocol.py lines 236-265: one active beam's children for one step.
Each returned pair is the child beam together with the classification flag
(`true` = moved to `completed`).  A child whose sampled token is an EOS id
is finalized with reason `"stop"` only when EOS is not globally ignored
and at least `min_tokens` generated tokens exist; otherwise it stays
active. -/
def expandBeam (cfg : EOSTokenConfig) (ignore_eos : Bool)
    (min_tokens tokenized_length stepIdx : ℕ)
    (current_beam : BeamSearchSequence) (lps : LogprobsEntry) :
    List (BeamSearchSequence × Bool) :=
  lps.map (fun tl =>
    let new_beam : BeamSearchSequence :=
      { tokens := current_beam.tokens ++ [tl.1],
        logprobs := current_beam.logprobs ++ [lps],
        cum_logprob := current_beam.cum_logprob + tl.2 }
    if cfg.is_eos_token tl.1 && !ignore_eos then
      if min_tokens ≤ new_beam.tokens.length - tokenized_length then
        ({ new_beam with finish_reason := some "stop",
                         stop_reason := some tl.1,
                         is_finished := true,
                         finished_step := some stepIdx }, true)
      else (new_beam, false)
    else (new_beam, false))

/-- The classified children of every active beam for one step: the
fan-out over the oracle (protocol.py lines 227-265). -/
def stepChildren (a : BeamSearchArgs) (stepIdx : ℕ) (s : OrchState) :
    List (BeamSearchSequence × Bool) :=
  s.all_beams.enum.flatMap (fun p =>
    match a.gen stepIdx p.1 p.2.tokens with
    | none => []
    | some lps =>
        expandBeam a.eos_config a.ignore_eos a.min_tokens
          a.prompt_token_ids.length stepIdx p.2 lps)

/-- protocol.py lines 216-269: one iteration of `for step in
range(max_tokens)`.  When the active set is empty the Python loop breaks;
every later iteration is a no-op on the state (the loop-local
`current_step` assignment Python still performs before the break is
observable by nothing).  Otherwise: expand every active beam through the
oracle, classify the children, extend `completed`, and keep the top
`beam_width` of the surviving children under the stable descending sort
by `beam_key`. -/
noncomputable def beamSearchStep (a : BeamSearchArgs) (stepIdx : ℕ)
    (s : OrchState) : OrchState :=
  if s.all_beams.isEmpty then s
  else
    let children := stepChildren a stepIdx s
    { all_beams :=
        (sortedByKeyDesc a.beam_key
          ((children.filter (fun c => !c.2)).map (fun c => c.1))).take
          a.beam_width,
      completed :=
        s.completed ++ (children.filter (fun c => c.2)).map (fun c => c.1),
      current_step := stepIdx }

/-- The state after the first `n` iterations of the loop, starting from
the seed beam holding the prompt (protocol.py lines 194-202). -/
noncomputable def beamSearchRun (a : BeamSearchArgs) : ℕ → OrchState
  | 0 =>
    { all_beams :=
        [{ tokens := a.prompt_token_ids, logprobs := [], cum_logprob := 0 }],
      completed := [], current_step := 0 }
  | n + 1 => beamSearchStep a n (beamSearchRun a n)

/-- protocol.py lines 271-277: after the loop, every remaining active beam
is finalized with reason `"length"` and appended to `completed`. -/
noncomputable def beamSearchCompleted (a : BeamSearchArgs) :
    List BeamSearchSequence :=
  let final := beamSearchRun a a.max_tokens
  final.completed ++ final.all_beams.map (fun beam =>
    if beam.is_finished then beam
    else { beam with finish_reason := some "length",
                     is_finished := true,
                     finished_step := some final.current_step })

/-- protocol.py lines 285-295: the token ids emitted for one finished
beam — the prompt prefix is always dropped, and the trailing token is
additionally dropped when it is an EOS token, EOS is not ignored, and stop
tokens are excluded from the output (`tokens[tokenized_length:-1]`). -/
def output_token_ids (cfg : EOSTokenConfig)
    (ignore_eos include_stop_str_in_output : Bool) (tokenized_length : ℕ)
    (beam : BeamSearchSequence) : List ℤ :=
  match beam.tokens.getLast? with
  | some t =>
      if cfg.is_eos_token t && !ignore_eos && !include_stop_str_in_output
      then (beam.tokens.drop tokenized_length).dropLast
      else beam.tokens.drop tokenized_length
  | none => beam.tokens.drop tokenized_length

theorem output_token_ids_of_getLast (cfg : EOSTokenConfig)
    (ig inc : Bool) (tl : ℕ) (beam : BeamSearchSequence) (t : ℤ)
    (ht : beam.tokens.getLast? = some t) :
    output_token_ids cfg ig inc tl beam =
      if cfg.is_eos_token t && !ig && !inc
      then (beam.tokens.drop tl).dropLast
      else beam.tokens.drop tl := by
  unfold output_token_ids
  rw [ht]

theorem output_token_ids_of_getLast_none (cfg : EOSTokenConfig)
    (ig inc : Bool) (tl : ℕ) (beam : BeamSearchSequence)
    (ht : beam.tokens.getLast? = none) :
    output_token_ids cfg ig inc tl beam = beam.tokens.drop tl := by
  unfold output_token_ids
  rw [ht]

/-- protocol.py lines 283-309: the `CompletionOutput` built for the `i`-th
best completed beam. -/
def mkOutput (a : BeamSearchArgs) (i : ℕ) (beam : BeamSearchSequence) :
    CompletionOutput :=
  let toks := output_token_ids a.eos_config a.ignore_eos
    a.include_stop_str_in_output a.prompt_token_ids.length beam
  { text := a.decode toks,
    cumulative_logprob := beam.cum_logprob,
    token_ids := toks,
    index := i,
    logprobs := beam.logprobs,
    finish_reason := beam.finish_reason.getD "length",
    stop_reason := beam.stop_reason }

/-- protocol.py lines 279-309: run the loop for `max_tokens` iterations,
finalize the remaining active beams, rank all completed beams by the
stable descending sort and emit the best `beam_width` as outputs. -/
noncomputable def beamSearch (a : BeamSearchArgs) : List CompletionOutput :=
  ((sortedByKeyDesc a.beam_key (beamSearchCompleted a)).take
    a.beam_width).enum.map (fun p => mkOutput a p.1 p.2)

/-- The `BeamSearchInstance` view of an orchestrator loop state, used to
ask what `should_early_stop` would answer there. -/
def OrchState.toInstance (s : OrchState) (cfg : EOSTokenConfig) :
    BeamSearchInstance :=
  { beams := s.all_beams, completed := s.completed, eos_config := cfg,
    current_step := s.current_step }

theorem expandBeam_ignore_eos (cfg : EOSTokenConfig)
    (min_tokens tokenized_length stepIdx : ℕ)
    (cur : BeamSearchSequence) (lps : LogprobsEntry) :
    ∀ pr ∈ expandBeam cfg true min_tokens tokenized_length stepIdx cur lps,
      pr.2 = false ∧ pr.1.is_finished = false := by
  intro pr hpr
  unfold expandBeam at hpr
  rw [List.mem_map] at hpr
  obtain ⟨tl, _, rfl⟩ := hpr
  simp

theorem stepChildren_ignore_eos (a : BeamSearchArgs)
    (h : a.ignore_eos = true) (stepIdx : ℕ) (s : OrchState) :
    ∀ pr ∈ stepChildren a stepIdx s,
      pr.2 = false ∧ pr.1.is_finished = false := by
  intro pr hpr
  unfold stepChildren at hpr
  rw [List.mem_flatMap] at hpr
  obtain ⟨p, _, hpr⟩ := hpr
  cases hg : a.gen stepIdx p.1 p.2.tokens with
  | none => rw [hg] at hpr; cases hpr
  | some lps =>
    rw [hg] at hpr
    rw [h] at hpr
    exact expandBeam_ignore_eos _ _ _ _ _ _ pr hpr

/-- With `ignore_eos` the loop never completes a beam and keeps every
active beam unfinished. -/
theorem beamSearchRun_ignore_eos (a : BeamSearchArgs)
    (h : a.ignore_eos = true) (n : ℕ) :
    (beamSearchRun a n).completed = [] ∧
      ∀ b ∈ (beamSearchRun a n).all_beams, b.is_finished = false := by
  induction n with
  | zero =>
    refine ⟨rfl, ?_⟩
    intro b hb
    simp only [beamSearchRun, List.mem_singleton] at hb
    subst hb
    rfl
  | succ n ih =>
    have hstep : beamSearchRun a (n + 1) =
        beamSearchStep a n (beamSearchRun a n) := rfl
    rw [hstep]
    by_cases he : (beamSearchRun a n).all_beams.isEmpty
    · unfold beamSearchStep
      rw [if_pos he]
      exact ih
    · unfold beamSearchStep
      rw [if_neg he]
      simp only
      constructor
      · rw [ih.1, List.nil_append]
        rw [List.map_eq_nil_iff, List.filter_eq_nil_iff]
        intro pr hpr
        rw [(stepChildren_ignore_eos a h n _ pr hpr).1]
        exact Bool.false_ne_true
      · intro b hb
        have hb1 : b ∈ sortedByKeyDesc a.beam_key
            (((stepChildren a n (beamSearchRun a n)).filter
              (fun c => !c.2)).map (fun c => c.1)) :=
          List.take_subset _ _ hb
        rw [(sortedByKeyDesc_perm _ _).mem_iff] at hb1
        rw [List.mem_map] at hb1
        obtain ⟨pr, hpr, rfl⟩ := hb1
        exact (stepChildren_ignore_eos a h n _ pr
          (List.mem_of_mem_filter hpr)).2

/-- C9: in a `beam_search` run with `ignore_eos = true` no candidate is
ever finalized with reason "stop": the completed list stays empty for the
whole loop (a beam sampling an EOS token stays active and keeps
generating), and every sequence of the final output carries finish reason
"length". -/
theorem beam_search_ignore_eos_all_length
    (gen : ℕ → ℕ → List ℤ → Option LogprobsEntry)
    (decode : List ℤ → String) (prompt : List ℤ) (w maxT : ℕ) (lp : ℝ)
    (inc : Bool) (minT : ℕ) (det : EOSTokenConfig) (addl : List ℤ) :
    (∀ n, (beamSearchRun
        ⟨gen, decode, prompt, w, maxT, true, lp, inc, minT, det, addl⟩
        n).completed = []) ∧
    (beamSearch
        ⟨gen, decode, prompt, w, maxT, true, lp, inc, minT, det, addl⟩).Forall
      (fun o => o.finish_reason = "length") := by
  set a : BeamSearchArgs :=
    ⟨gen, decode, prompt, w, maxT, true, lp, inc, minT, det, addl⟩ with ha
  have hig : a.ignore_eos = true := rfl
  refine ⟨fun n => (beamSearchRun_ignore_eos a hig n).1, ?_⟩
  rw [List.forall_iff_forall_mem]
  intro o ho
  unfold beamSearch at ho
  rw [List.mem_map] at ho
  obtain ⟨p, hp, rfl⟩ := ho
  have hb : p.2 ∈ (sortedByKeyDesc a.beam_key (beamSearchCompleted a)).take
      a.beam_width := by
    have := List.mem_map_of_mem Prod.snd hp
    rwa [List.enum_map_snd] at this
  have hb2 : p.2 ∈ beamSearchCompleted a := by
    have h1 := List.take_subset _ _ hb
    rwa [(sortedByKeyDesc_perm _ _).mem_iff] at h1
  have hfin : p.2.finish_reason = some "length" := by
    simp only [beamSearchCompleted] at hb2
    rw [(beamSearchRun_ignore_eos a hig a.max_tokens).1,
      List.nil_append, List.mem_map] at hb2
    obtain ⟨b, hbmem, heq⟩ := hb2
    rw [← heq, if_neg (by
      rw [(beamSearchRun_ignore_eos a hig a.max_tokens).2 b hbmem]
      exact Bool.false_ne_true)]
  show (mkOutput a p.1 p.2).finish_reason = "length"
  unfold mkOutput
  rw [hfin]
  rfl

/-- C6 (amended): every output candidate's token list is the candidate's
token list with the prompt prefix trimmed (possibly also without its last
token), its text is the detokenization of exactly those ids, and whenever
the candidate's last token is an EOS token, `ignore_eos` is false and
`include_stop_str_in_output` is false, the trailing token is dropped from
the ids (and hence from the text, which decodes the same ids). -/
theorem beam_search_output_trim (a : BeamSearchArgs) :
    (beamSearch a).Forall (fun o =>
      ∃ beam : BeamSearchSequence,
        (o.token_ids = beam.tokens.drop a.prompt_token_ids.length ∨
          o.token_ids =
            (beam.tokens.drop a.prompt_token_ids.length).dropLast) ∧
        o.text = a.decode o.token_ids ∧
        ∀ t, beam.tokens.getLast? = some t →
          a.eos_config.is_eos_token t = true →
          a.ignore_eos = false →
          a.include_stop_str_in_output = false →
          o.token_ids =
            (beam.tokens.drop a.prompt_token_ids.length).dropLast) := by
  rw [List.forall_iff_forall_mem]
  intro o ho
  unfold beamSearch at ho
  rw [List.mem_map] at ho
  obtain ⟨p, _, rfl⟩ := ho
  refine ⟨p.2, ?_, rfl, ?_⟩
  · show output_token_ids _ _ _ _ _ = _ ∨ output_token_ids _ _ _ _ _ = _
    cases hlast : p.2.tokens.getLast? with
    | none =>
      rw [output_token_ids_of_getLast_none _ _ _ _ _ hlast]
      exact Or.inl rfl
    | some t =>
      rw [output_token_ids_of_getLast _ _ _ _ _ t hlast]
      by_cases hc : (a.eos_config.is_eos_token t && !a.ignore_eos &&
          !a.include_stop_str_in_output) = true
      · rw [if_pos hc]
        exact Or.inr rfl
      · rw [if_neg hc]
        exact Or.inl rfl
  · intro t ht heos hig hinc
    show output_token_ids _ _ _ _ _ = _
    rw [output_token_ids_of_getLast _ _ _ _ _ t ht, heos, hig, hinc]
    rfl

/-- The concrete C6 counterexample run: prompt `[0]`, one step, the
oracle always proposing the EOS token `9`, with `ignore_eos = true` and
`include_stop_str_in_output = false`. -/
def argsKeepEos : BeamSearchArgs :=
  { gen := fun _ _ _ => some [(9, -1)],
    decode := fun _ => "",
    prompt_token_ids := [0],
    beam_width := 1,
    max_tokens := 1,
    ignore_eos := true,
    length_penalty := 1,
    include_stop_str_in_output := false,
    min_tokens := 0,
    detected := { primary_eos_token_id := some 9 },
    additional_eos_token_ids := [] }

/-- The single active beam after the only step of `argsKeepEos`. -/
def keepEosChild : BeamSearchSequence :=
  { tokens := [0, 9], logprobs := [[(9, -1)]], cum_logprob := 0 + (-1) }

/-- That beam finalized with reason "length" after the loop. -/
def keepEosFinal : BeamSearchSequence :=
  { tokens := [0, 9], logprobs := [[(9, -1)]], cum_logprob := 0 + (-1),
    finish_reason := some "length", is_finished := true,
    finished_step := some 0 }

theorem keepEos_run_one :
    beamSearchRun argsKeepEos 1 =
      { all_beams := [keepEosChild], completed := [], current_step := 0 } := by
  have h1 : beamSearchRun argsKeepEos 1 =
      beamSearchStep argsKeepEos 0 (beamSearchRun argsKeepEos 0) := rfl
  have h0 : beamSearchRun argsKeepEos 0 =
      { all_beams := [{ tokens := [0], logprobs := [], cum_logprob := 0 }],
        completed := [], current_step := 0 } := rfl
  have hch : stepChildren argsKeepEos 0
      { all_beams := [{ tokens := [0], logprobs := [], cum_logprob := 0 }],
        completed := [], current_step := 0 } = [(keepEosChild, false)] := rfl
  rw [h1, h0]
  simp only [beamSearchStep, List.isEmpty_cons, Bool.false_eq_true,
    if_false, hch]
  simp [sortedByKeyDesc_singleton, show argsKeepEos.beam_width = 1 from rfl]

theorem keepEos_completed :
    beamSearchCompleted argsKeepEos = [keepEosFinal] := by
  simp only [beamSearchCompleted,
    show argsKeepEos.max_tokens = 1 from rfl, keepEos_run_one]
  rfl

theorem keepEos_outputs :
    beamSearch argsKeepEos = [mkOutput argsKeepEos 0 keepEosFinal] := by
  unfold beamSearch
  simp only [keepEos_completed, sortedByKeyDesc_singleton]
  rfl

/-- C6 counterexample: in the `argsKeepEos` run the single output's token
list is `[9]`, whose last token is an EOS token, while
`include_stop_str_in_output` is false — yet the trailing EOS token was not
dropped (the claim would force the output token list `[]`), because the
source additionally requires `ignore_eos` to be false. -/
theorem beam_search_output_trim_cex :
    (beamSearch argsKeepEos).map (fun o => o.token_ids) = [[9]] ∧
    argsKeepEos.eos_config.is_eos_token 9 = true ∧
    argsKeepEos.include_stop_str_in_output = false ∧
    ([[9]] : List (List ℤ)) ≠ [[]] := by
  refine ⟨?_, rfl, rfl, by decide⟩
  rw [keepEos_outputs]
  rfl

/-- C1 (amended): once the active set is empty the loop performs no
further work — every later iteration leaves the state unchanged, so the
search effectively ends as soon as the active set is empty or the
`max_tokens` step budget is exhausted.  (The early-stop heuristic
`should_early_stop` is defined on `BeamSearchInstance` but is never
consulted by the `beam_search` loop; see the counterexample.) -/
theorem beamSearchRun_stops_on_empty (a : BeamSearchArgs) (n : ℕ)
    (h : (beamSearchRun a n).all_beams = []) :
    beamSearchRun a (n + 1) = beamSearchRun a n := by
  have hstep : beamSearchRun a (n + 1) =
      beamSearchStep a n (beamSearchRun a n) := rfl
  rw [hstep]
  unfold beamSearchStep
  rw [if_pos (by rw [h]; rfl)]

/-- A one-step run whose only child reaches EOS immediately, emptying the
active set: prompt `[0]`, oracle always proposing the EOS token `9`,
`ignore_eos = false`. -/
def argsStopFast : BeamSearchArgs :=
  { gen := fun _ _ _ => some [(9, -1)],
    decode := fun _ => "",
    prompt_token_ids := [0],
    beam_width := 1,
    max_tokens := 2,
    ignore_eos := false,
    length_penalty := 1,
    include_stop_str_in_output := false,
    min_tokens := 0,
    detected := { primary_eos_token_id := some 9 },
    additional_eos_token_ids := [] }

/-- The completed beam of the `argsStopFast` run. -/
def stopFastChild : BeamSearchSequence :=
  { tokens := [0, 9], logprobs := [[(9, -1)]], cum_logprob := 0 + (-1),
    finish_reason := some "stop", stop_reason := some 9,
    is_finished := true, finished_step := some 0 }

theorem stopFast_run_one :
    beamSearchRun argsStopFast 1 =
      { all_beams := [], completed := [stopFastChild],
        current_step := 0 } := by
  have h1 : beamSearchRun argsStopFast 1 =
      beamSearchStep argsStopFast 0 (beamSearchRun argsStopFast 0) := rfl
  have h0 : beamSearchRun argsStopFast 0 =
      { all_beams := [{ tokens := [0], logprobs := [], cum_logprob := 0 }],
        completed := [], current_step := 0 } := rfl
  have hch : stepChildren argsStopFast 0
      { all_beams := [{ tokens := [0], logprobs := [], cum_logprob := 0 }],
        completed := [], current_step := 0 } = [(stopFastChild, true)] := rfl
  rw [h1, h0]
  simp only [beamSearchStep, List.isEmpty_cons, Bool.false_eq_true,
    if_false, hch]
  simp [sortedByKeyDesc_nil]

/-- Witness for the amended C1: in the `argsStopFast` run the active set
is empty after one step, and the second loop iteration changes nothing. -/
theorem beamSearchRun_stops_on_empty_witness :
    (beamSearchRun argsStopFast 1).all_beams = [] ∧
      beamSearchRun argsStopFast 2 = beamSearchRun argsStopFast 1 :=
  ⟨by rw [stopFast_run_one],
    beamSearchRun_stops_on_empty argsStopFast 1 (by rw [stopFast_run_one])⟩

/-- The C1 counterexample run: at step 0 the oracle offers both the EOS
token `9` (logprob `-1/10`, immediately completing a strong candidate)
and the weak continuation `1` (logprob `-100`); afterwards it offers only
`1`. -/
noncomputable def lpsSplit : LogprobsEntry := [(9, -(1 / 10)), (1, -100)]

noncomputable def argsNoEarly : BeamSearchArgs :=
  { gen := fun stepIdx _ _ => if stepIdx = 0 then some lpsSplit
      else some [(1, -1)],
    decode := fun _ => "",
    prompt_token_ids := [0],
    beam_width := 1,
    max_tokens := 3,
    ignore_eos := false,
    length_penalty := 1,
    include_stop_str_in_output := false,
    min_tokens := 0,
    detected := { primary_eos_token_id := some 9 },
    additional_eos_token_ids := [] }

/-- The completed beam of the `argsNoEarly` run after step 0. -/
noncomputable def noEarlyDone : BeamSearchSequence :=
  { tokens := [0, 9], logprobs := [lpsSplit], cum_logprob := 0 + -(1 / 10),
    finish_reason := some "stop", stop_reason := some 9,
    is_finished := true, finished_step := some 0 }

/-- The active beam of the `argsNoEarly` run after step 0. -/
noncomputable def noEarlyActive1 : BeamSearchSequence :=
  { tokens := [0, 1], logprobs := [lpsSplit], cum_logprob := 0 + -100 }

/-- The active beam of the `argsNoEarly` run after step 1. -/
noncomputable def noEarlyActive2 : BeamSearchSequence :=
  { tokens := [0, 1, 1], logprobs := [lpsSplit, [(1, -1)]],
    cum_logprob := 0 + -100 + -1 }

theorem noEarly_run_one :
    beamSearchRun argsNoEarly 1 =
      { all_beams := [noEarlyActive1], completed := [noEarlyDone],
        current_step := 0 } := by
  have h1 : beamSearchRun argsNoEarly 1 =
      beamSearchStep argsNoEarly 0 (beamSearchRun argsNoEarly 0) := rfl
  have h0 : beamSearchRun argsNoEarly 0 =
      { all_beams := [{ tokens := [0], logprobs := [], cum_logprob := 0 }],
        completed := [], current_step := 0 } := rfl
  have hch : stepChildren argsNoEarly 0
      { all_beams := [{ tokens := [0], logprobs := [], cum_logprob := 0 }],
        completed := [], current_step := 0 } =
      [(noEarlyDone, true), (noEarlyActive1, false)] := rfl
  rw [h1, h0]
  simp only [beamSearchStep, List.isEmpty_cons, Bool.false_eq_true,
    if_false, hch]
  simp [sortedByKeyDesc_singleton, show argsNoEarly.beam_width = 1 from rfl]

theorem noEarly_run_two :
    beamSearchRun argsNoEarly 2 =
      { all_beams := [noEarlyActive2], completed := [noEarlyDone],
        current_step := 1 } := by
  have h2 : beamSearchRun argsNoEarly 2 =
      beamSearchStep argsNoEarly 1 (beamSearchRun argsNoEarly 1) := rfl
  have hch : stepChildren argsNoEarly 1
      { all_beams := [noEarlyActive1], completed := [noEarlyDone],
        current_step := 0 } = [(noEarlyActive2, false)] := rfl
  rw [h2, noEarly_run_one]
  simp only [beamSearchStep, List.isEmpty_cons, Bool.false_eq_true,
    if_false, hch]
  simp [sortedByKeyDesc_singleton, show argsNoEarly.beam_width = 1 from rfl]

/-- C1 counterexample: after step 0 of the `argsNoEarly` run the
early-stop heuristic (`should_early_stop` on the loop state, with the
call's beam width 1 and length penalty 1) answers true, the active set is
nonempty and the step budget (3) is not exhausted — yet the loop performs
another full iteration that changes the active set.  The `beam_search`
loop never consults `should_early_stop`. -/
theorem early_stop_not_consulted_cex :
    ((beamSearchRun argsNoEarly 1).toInstance
        argsNoEarly.eos_config).should_early_stop 1 1 ∧
    (beamSearchRun argsNoEarly 1).all_beams ≠ [] ∧
    (beamSearchRun argsNoEarly 2).all_beams ≠
      (beamSearchRun argsNoEarly 1).all_beams := by
  refine ⟨?_, ?_, ?_⟩
  · rw [noEarly_run_one]
    have hbest : BeamSearchInstance.get_best_completed_beams
        (OrchState.toInstance
          { all_beams := [noEarlyActive1], completed := [noEarlyDone],
            current_step := 0 } argsNoEarly.eos_config) 1 1 =
        [noEarlyDone] := by
      unfold BeamSearchInstance.get_best_completed_beams
      rw [if_neg (by simp [OrchState.toInstance])]
      simp [OrchState.toInstance, sortedByKeyDesc_singleton]
    unfold BeamSearchInstance.should_early_stop
    rw [if_neg (by simp [OrchState.toInstance])]
    simp only [hbest]
    rw [if_neg (by simp)]
    simp only [List.getLast?_singleton]
    intro b hb hfin
    simp only [OrchState.toInstance, List.mem_singleton] at hb
    subst hb
    have hkeyA : sort_beams_key 9 1 noEarlyDone = -(1 / 10) := by
      unfold sort_beams_key noEarlyDone
      rw [score_eq_div_rpow, show effectiveLen [0, 9] 9 = 1 from rfl,
        Real.rpow_one]
      norm_num
    have hkeyB : sort_beams_key 9 1 noEarlyActive1 = -600 / 7 := by
      unfold sort_beams_key noEarlyActive1
      rw [score_eq_div_rpow, show effectiveLen [0, 1] 9 = 2 from rfl,
        Real.rpow_one]
      norm_num
    have hmargin : BeamSearchInstance.adaptive_margin
        noEarlyActive1.tokens.length noEarlyDone.tokens.length = 0.9 := by
      unfold BeamSearchInstance.adaptive_margin noEarlyActive1 noEarlyDone
      norm_num
    have hfinal : ¬ (sort_beams_key 9 1 noEarlyActive1 >
        sort_beams_key 9 1 noEarlyDone *
          BeamSearchInstance.adaptive_margin noEarlyActive1.tokens.length
            noEarlyDone.tokens.length) := by
      rw [hkeyA, hkeyB, hmargin]
      norm_num
    exact hfinal
  · rw [noEarly_run_one]
    simp
  · rw [noEarly_run_one, noEarly_run_two]
    simp [noEarlyActive1, noEarlyActive2]

end VllmBeam
